import Mathlib

/-!
Verification development for the SQL pipe-syntax transform pipeline
(`preprocessing.py` / `pipesyntax.py`): plan-tree flattening, variable
normalization, synthetic stage injection (WHERE / SET) and template rendering.

Strings are modelled as `List Char`; Python `str.find` / `str.rfind` /
`str.replace` / slicing are given faithful executable counterparts.
-/

/-- Strings of the embedded program are lists of characters. -/
abbrev Str : Type := List Char

/-- Literal helper: turn a Lean string literal into our `Str` type. -/
def lit (s : String) : Str := s.toList

/-- Lower-case every character (Python `str.lower` on ASCII data). -/
def lowerStr (s : Str) : Str := s.map Char.toLower

/-- Index of the first occurrence of `c`, if any (helper for Python `find`). -/
def firstIdx (c : Char) : Str → Option Nat
  | [] => Option.none
  | x :: rest => if x == c then some 0 else (firstIdx c rest).map (· + 1)

/-- Index of the last occurrence of `c`, if any (helper for Python `rfind`). -/
def lastIdx (c : Char) : Str → Option Nat
  | [] => Option.none
  | x :: rest =>
    match lastIdx c rest with
    | some i => some (i + 1)
    | Option.none => if x == c then some 0 else Option.none

/-- Python `s.find(c)`: index of the first occurrence, `-1` when absent. -/
def pyFind (s : Str) (c : Char) : Int :=
  match firstIdx c s with
  | some i => (i : Int)
  | Option.none => -1

/-- Python `s.rfind(c, 0, e)`: the slice end `e` may be negative, in which
case it counts from the end of the string; the result is the index of the
last occurrence of `c` in `s[0:e]`, or `-1`. -/
def pyRfindBefore (s : Str) (c : Char) (e : Int) : Int :=
  match lastIdx c
      (s.take (max 0 (min (if e < 0 then (s.length : Int) + e else e)
        (s.length : Int))).toNat) with
  | some i => (i : Int)
  | Option.none => -1

/-- `QEP.__remove_tables_from_variables`: drop the table qualifier before the
first full stop, keeping a bracket prefix when one occurs before the stop. -/
def remove_tables_from_variables (variable_string : Str) : Str :=
  let full_stop_index := pyFind variable_string '.'
  let bracket_index := pyRfindBefore variable_string '(' full_stop_index
  if bracket_index < full_stop_index ∧ bracket_index ≠ -1 then
    variable_string.take bracket_index.toNat ++ lit "(" ++
      variable_string.drop (full_stop_index + 1).toNat
  else if bracket_index = -1 then
    variable_string.drop (full_stop_index + 1).toNat
  else
    variable_string

/-- Spec-side formulation of the table-prefix stripping rule, written from the
specification's words: `d` is the index of the first `.`, `b` the index of the
last `(` before `d`; with a bracket before the stop keep everything up to and
including the bracket plus everything after the stop; with no stop return the
input; otherwise return everything after the stop. -/
def specTableStrip (s : Str) : Str :=
  match firstIdx '.' s with
  | Option.none => s
  | some d =>
    match lastIdx '(' (s.take d) with
    | some b => s.take b ++ lit "(" ++ s.drop (d + 1)
    | Option.none => s.drop (d + 1)

lemma firstIdx_lt_length {c : Char} : ∀ {s : Str} {i : Nat},
    firstIdx c s = some i → i < s.length := by
  intro s
  induction s with
  | nil => intro i h; simp [firstIdx] at h
  | cons x rest ih =>
    intro i h
    simp only [firstIdx] at h
    by_cases hx : x == c
    · simp [hx] at h
      simp only [List.length_cons]
      omega
    · simp [hx] at h
      obtain ⟨j, hj, rfl⟩ := h
      have := ih hj
      simp only [List.length_cons]
      omega

lemma lastIdx_lt_length {c : Char} : ∀ {s : Str} {i : Nat},
    lastIdx c s = some i → i < s.length := by
  intro s
  induction s with
  | nil => intro i h; simp [lastIdx] at h
  | cons x rest ih =>
    intro i h
    simp only [lastIdx] at h
    cases hr : lastIdx c rest with
    | some j =>
      rw [hr] at h
      have := ih hr
      simp at h
      simp only [List.length_cons]
      omega
    | none =>
      rw [hr] at h
      by_cases hx : x == c
      · simp [hx] at h
        simp only [List.length_cons]
        omega
      · simp [hx] at h

lemma pyRfindBefore_ge (s : Str) (c : Char) (e : Int) : -1 ≤ pyRfindBefore s c e := by
  unfold pyRfindBefore
  cases lastIdx c
      (s.take (max 0 (min (if e < 0 then (s.length : Int) + e else e)
        (s.length : Int))).toNat) with
  | some i => simp; omega
  | none => simp

/-- C5: table-prefix stripping follows exactly the first-stop / last-bracket
rule of the specification: with a `(` before the first `.` keep everything up
to and including the bracket and everything after the stop; with no `.`
return the input unchanged; otherwise return everything after the stop.
In particular `customer.c_custkey ↦ c_custkey` and
`count(customer.c_acct_bal) ↦ count(c_acct_bal)`. -/
theorem C5_table_prefix_strip :
    (∀ s : Str, remove_tables_from_variables s = specTableStrip s)
    ∧ remove_tables_from_variables (lit "customer.c_custkey") = lit "c_custkey"
    ∧ remove_tables_from_variables (lit "count(customer.c_acct_bal)") =
        lit "count(c_acct_bal)" := by
  refine ⟨?_, by decide, by decide⟩
  intro s
  cases hd : firstIdx '.' s with
  | none =>
    have hfind : pyFind s '.' = -1 := by simp [pyFind, hd]
    have hge := pyRfindBefore_ge s '(' (-1)
    simp only [remove_tables_from_variables, specTableStrip, hd, hfind]
    have hnot : ¬ (pyRfindBefore s '(' (-1) < -1 ∧ pyRfindBefore s '(' (-1) ≠ -1) := by
      omega
    rw [if_neg hnot]
    by_cases hb : pyRfindBefore s '(' (-1) = -1
    · rw [if_pos hb]
      norm_num
    · rw [if_neg hb]
  | some d =>
    have hdlt := firstIdx_lt_length hd
    have hfind : pyFind s '.' = (d : Int) := by simp [pyFind, hd]
    have harg : (max 0 (min (if (d : Int) < 0 then (s.length : Int) + d else (d : Int))
        (s.length : Int))).toNat = d := by
      have hnn : ¬ ((d : Int) < 0) := by omega
      rw [if_neg hnn]
      omega
    simp only [remove_tables_from_variables, specTableStrip, hd, hfind,
      pyRfindBefore, harg]
    cases hb : lastIdx '(' (s.take d) with
    | none =>
      have hnot : ¬ ((-1 : Int) < (d : Int) ∧ (-1 : Int) ≠ -1) := by simp
      rw [if_neg hnot, if_pos rfl]
      have h1 : ((d : Int) + 1).toNat = d + 1 := by omega
      rw [h1]
    | some b =>
      have hblt := lastIdx_lt_length hb
      have hbd : b < d := by
        have := s.length_take d
        omega
      have hcond : ((b : Int)) < (d : Int) ∧ ((b : Int)) ≠ -1 := by
        constructor
        · exact_mod_cast hbd
        · omega
      rw [if_pos hcond]
      have h1 : ((b : Int)).toNat = b := by omega
      have h2 : ((d : Int) + 1).toNat = d + 1 := by omega
      rw [h1, h2]

/-- Python substring containment `v in s`. -/
def isSubstr (v : Str) : Str → Bool
  | [] => v.isPrefixOf []
  | c :: rest => v.isPrefixOf (c :: rest) || isSubstr v rest

/-- Python `str.replace(v, k)` scanning loop: left-to-right, non-overlapping,
replacing every occurrence; `fuel` bounds the recursion by the input length. -/
def replaceGo (v k : Str) : Nat → Str → Str
  | _, [] => []
  | 0, s => s
  | fuel + 1, c :: rest =>
    if v.isPrefixOf (c :: rest) then
      k ++ replaceGo v k fuel ((c :: rest).drop v.length)
    else
      c :: replaceGo v k fuel rest

/-- Python `s.replace(v, k)` (the empty-pattern case inserts `k` around every
character, as CPython does). -/
def pyReplace (s v k : Str) : Str :=
  if v = [] then k ++ s.flatMap (fun c => c :: k)
  else replaceGo v k s.length s

/-- `QEP.__add_table_alias`: find the first alias entry whose expression value
is a substring of the variable and replace that value by the alias key. -/
def add_table_alias (aliases : List (Str × Str)) (variable_string : Str) : Str :=
  match aliases.find? (fun items => isSubstr items.2 variable_string) with
  | some temp_var => pyReplace variable_string temp_var.2 temp_var.1
  | Option.none => variable_string

/-- The alias map of the specification's determinism example. -/
def custdistMap : List (Str × Str) := [(lit "custdist", lit "count(*)")]

/-- Alias map on which alias substitution fails to be idempotent. -/
def cexAliasMap : List (Str × Str) := [(lit "aa", lit "a")]

/-- C6: the claim that alias substitution is idempotent for every alias map is
false: with the alias map `{"aa": "a"}` the token `"a"` normalizes once to
`"aa"` but twice to `"aaaa"`. -/
theorem C6_alias_subst_counterexample :
    add_table_alias cexAliasMap (add_table_alias cexAliasMap (lit "a")) ≠
      add_table_alias cexAliasMap (lit "a") := by
  decide

lemma drop_succ_ex {α : Type} : ∀ (l : List α) (j : Nat), j < l.length →
    ∃ a, l.drop j = a :: l.drop (j + 1) := by
  intro l
  induction l with
  | nil => intro j h; simp at h
  | cons b rest ih =>
    intro j h
    cases j with
    | zero => exact ⟨b, rfl⟩
    | succ m =>
      simp only [List.drop_succ_cons]
      exact ih m (by simpa using h)

lemma isPrefixOf_cons_cons (a b : Char) (x y : Str) :
    (a :: x).isPrefixOf (b :: y) = ((a == b) && x.isPrefixOf y) := rfl

lemma prefix_cons_elim (v : Str) (a : Char) (t : Str) (hv : v = a :: t) (c : Char)
    (y : Str) (h : v.isPrefixOf (c :: y) = true) : a = c ∧ t.isPrefixOf y = true := by
  rw [hv, isPrefixOf_cons_cons, Bool.and_eq_true] at h
  exact ⟨by simpa using h.1, h.2⟩

lemma prefix_cons_intro (v : Str) (a : Char) (t : Str) (hv : v = a :: t) (c : Char)
    (y : Str) (hac : a = c) (ht : t.isPrefixOf y = true) :
    v.isPrefixOf (c :: y) = true := by
  rw [hv, isPrefixOf_cons_cons, Bool.and_eq_true]
  exact ⟨by simp [hac], ht⟩

lemma prefix_nil_false (w : Str) (hw : 0 < w.length) :
    w.isPrefixOf ([] : Str) = false := by
  obtain ⟨a, ha⟩ := drop_succ_ex w 0 hw
  rw [List.drop_zero] at ha
  rw [ha]
  rfl

lemma isSubstr_nil_false (v : Str) (hv : 0 < v.length) : isSubstr v [] = false := by
  show v.isPrefixOf [] = false
  exact prefix_nil_false v hv

lemma replaceGo_nil (v k : Str) (fuel : Nat) : replaceGo v k fuel [] = [] := by
  cases fuel <;> rfl

/-- A prefix of `y ++ S` is, up to `y`'s length, a prefix of `y` alone. -/
lemma prefix_append_blocked : ∀ (y x S : Str),
    x.isPrefixOf (y ++ S) = true → (x.take y.length).isPrefixOf y = true := by
  intro y
  induction y with
  | nil => intro x S _; rfl
  | cons b y2 ih =>
    intro x S h
    cases x with
    | nil => rfl
    | cons a x2 =>
      rw [List.cons_append, isPrefixOf_cons_cons, Bool.and_eq_true] at h
      simp only [List.length_cons, List.take_succ_cons]
      rw [isPrefixOf_cons_cons, Bool.and_eq_true]
      exact ⟨h.1, ih x2 S h.2⟩

/-- When no suffix of `kk` starts an occurrence of `v`, substring search
passes straight through `kk`. -/
lemma substr_through (v : Str) : ∀ kk : Str,
    (∀ i, i < kk.length → ∀ S : Str, v.isPrefixOf (kk.drop i ++ S) = false) →
    ∀ S, isSubstr v (kk ++ S) = isSubstr v S := by
  intro kk
  induction kk with
  | nil => intro _ S; rfl
  | cons b kk2 ih =>
    intro hblock S
    rw [List.cons_append]
    rw [show isSubstr v (b :: (kk2 ++ S)) =
      (v.isPrefixOf (b :: (kk2 ++ S)) || isSubstr v (kk2 ++ S)) from rfl]
    have h0 := hblock 0 (by simp) S
    rw [List.drop_zero, List.cons_append] at h0
    rw [h0, Bool.false_or]
    exact ih (fun i hi S2 => hblock (i + 1) (by simpa using Nat.succ_lt_succ hi) S2) S

lemma refire_nil (v k : Str) (hv2 : 2 ≤ v.length) (fuel : Nat) :
    isSubstr v (replaceGo v k fuel []) = false ∧
    (∀ j, j < v.length → 1 ≤ j →
      (v.drop j).isPrefixOf (replaceGo v k fuel []) = true →
      (v.drop j).isPrefixOf ([] : Str) = true) := by
  rw [replaceGo_nil]
  exact ⟨isSubstr_nil_false v (by omega), fun j _ _ hpre => hpre⟩

/-- Core no-refire property of `str.replace`: when no alignment of `v` with
the replacement `k` is possible (no window of `k` starts `v`, and no proper
suffix of `v` starts with `k`'s text), the output of one replacement pass
contains no occurrence of `v` at all; moreover any proper suffix of `v` that
prefixes the output already prefixed the input. -/
lemma replace_no_refire (v k : Str) (hv2 : 2 ≤ v.length)
    (hk1 : ∀ i, i < k.length →
      ((v.take (k.length - i)).isPrefixOf (k.drop i)) = false)
    (hk2 : ∀ j, j < v.length → 1 ≤ j →
      (((v.drop j).take k.length).isPrefixOf k) = false) :
    ∀ (fuel : Nat) (s : Str), s.length ≤ fuel →
      isSubstr v (replaceGo v k fuel s) = false ∧
      (∀ j, j < v.length → 1 ≤ j →
        (v.drop j).isPrefixOf (replaceGo v k fuel s) = true →
        (v.drop j).isPrefixOf s = true) := by
  intro fuel
  induction fuel with
  | zero =>
    intro s hs
    have hsnil : s = [] := List.eq_nil_of_length_eq_zero (by omega)
    subst hsnil
    exact refire_nil v k hv2 0
  | succ fuel ih =>
    intro s hs
    cases s with
    | nil => exact refire_nil v k hv2 (fuel + 1)
    | cons c rest =>
      rw [show replaceGo v k (fuel + 1) (c :: rest) =
        (if v.isPrefixOf (c :: rest) then
          k ++ replaceGo v k fuel ((c :: rest).drop v.length)
        else c :: replaceGo v k fuel rest) from rfl]
      by_cases hm : v.isPrefixOf (c :: rest) = true
      · rw [if_pos hm]
        have hlen2 : ((c :: rest).drop v.length).length ≤ fuel := by
          rw [List.length_drop]
          simp only [List.length_cons] at hs ⊢
          omega
        obtain ⟨ihNo, _⟩ := ih ((c :: rest).drop v.length) hlen2
        have hblock : ∀ i, i < k.length → ∀ S : Str,
            v.isPrefixOf (k.drop i ++ S) = false := by
          intro i hi S
          cases hvp : v.isPrefixOf (k.drop i ++ S) with
          | false => rfl
          | true =>
            exfalso
            have hb := prefix_append_blocked (k.drop i) v S hvp
            rw [List.length_drop] at hb
            rw [hk1 i hi] at hb
            exact Bool.false_ne_true hb
        constructor
        · rw [substr_through v k hblock _]
          exact ihNo
        · intro j hj hj1 hpre
          exfalso
          have hb := prefix_append_blocked k (v.drop j) _ hpre
          rw [hk2 j hj hj1] at hb
          exact Bool.false_ne_true hb
      · rw [if_neg hm]
        obtain ⟨ihNo, ihTr⟩ := ih rest (by simp only [List.length_cons] at hs; omega)
        obtain ⟨a0, ha0⟩ := drop_succ_ex v 0 (by omega)
        rw [List.drop_zero] at ha0
        constructor
        · rw [show isSubstr v (c :: replaceGo v k fuel rest) =
            (v.isPrefixOf (c :: replaceGo v k fuel rest) ||
             isSubstr v (replaceGo v k fuel rest)) from rfl]
          rw [ihNo, Bool.or_false]
          cases hvp : v.isPrefixOf (c :: replaceGo v k fuel rest) with
          | false => rfl
          | true =>
            exfalso
            obtain ⟨hac, hpre1⟩ :=
              prefix_cons_elim v a0 (v.drop 1) ha0 c (replaceGo v k fuel rest) hvp
            have h1r : (v.drop 1).isPrefixOf rest = true :=
              ihTr 1 (by omega) (by omega) hpre1
            exact hm (prefix_cons_intro v a0 (v.drop 1) ha0 c rest hac h1r)
        · intro j hj hj1 hpre
          obtain ⟨aj, haj⟩ := drop_succ_ex v j hj
          obtain ⟨hac, hpreJ⟩ :=
            prefix_cons_elim (v.drop j) aj (v.drop (j + 1)) haj c
              (replaceGo v k fuel rest) hpre
          apply prefix_cons_intro (v.drop j) aj (v.drop (j + 1)) haj c rest hac
          by_cases hj6 : j + 1 < v.length
          · exact ihTr (j + 1) hj6 (by omega) hpreJ
          · have hnil : v.drop (j + 1) = [] := List.drop_eq_nil_of_le (by omega)
            rw [hnil]
            cases rest <;> rfl

/-- Replacing `count(*)` by `custdist` never leaves or creates an occurrence
of `count(*)`: no window of `custdist` starts `count(*)` and no proper
suffix of `count(*)` starts with `custdist`. -/
lemma no_refire_custdist (s : Str) :
    isSubstr (lit "count(*)") (pyReplace s (lit "count(*)") (lit "custdist")) =
      false := by
  unfold pyReplace
  rw [if_neg (show ¬ (lit "count(*)" = ([] : Str)) from by decide)]
  exact (replace_no_refire (lit "count(*)") (lit "custdist") (by decide)
    (by decide) (by decide) s.length s (le_refl _)).1

/-- C6 (amended): alias substitution is not idempotent for every alias map —
the counterexample map `{"aa": "a"}` refutes that — but for the alias map of
the specification's example, `{"custdist": "count(*)"}`, it is: normalizing
any token twice equals normalizing it once; in particular `"count(*)"`
normalizes to `"custdist"` and an already-aliased token is a no-op. -/
theorem C6_alias_subst_amended :
    add_table_alias custdistMap (lit "count(*)") = lit "custdist"
    ∧ add_table_alias custdistMap (lit "custdist") = lit "custdist"
    ∧ ∀ s : Str, add_table_alias custdistMap (add_table_alias custdistMap s) =
        add_table_alias custdistMap s := by
  refine ⟨by decide, by decide, ?_⟩
  intro s
  by_cases hp : isSubstr (lit "count(*)") s = true
  · have hfindS : custdistMap.find? (fun items => isSubstr items.2 s) =
        some (lit "custdist", lit "count(*)") := by
      simp [custdistMap, List.find?, hp]
    have h1 : add_table_alias custdistMap s =
        pyReplace s (lit "count(*)") (lit "custdist") := by
      unfold add_table_alias
      rw [hfindS]
    have h2 : isSubstr (lit "count(*)") (add_table_alias custdistMap s) = false := by
      rw [h1]
      exact no_refire_custdist s
    set t := add_table_alias custdistMap s with ht
    have hfindT : custdistMap.find? (fun items => isSubstr items.2 t) =
        Option.none := by
      simp [custdistMap, List.find?, h2]
    unfold add_table_alias
    rw [hfindT]
  · have hp2 : isSubstr (lit "count(*)") s = false := by
      cases hx : isSubstr (lit "count(*)") s with
      | false => rfl
      | true => exact absurd hx hp
    have hfindS : custdistMap.find? (fun items => isSubstr items.2 s) =
        Option.none := by
      simp [custdistMap, List.find?, hp2]
    have h1 : add_table_alias custdistMap s = s := by
      unfold add_table_alias
      rw [hfindS]
    rw [h1]
    exact h1

/-- Character class `[^) ]` of the cast-stripping pattern: anything except a
closing bracket or a space. -/
def notCastTerm (c : Char) : Bool := !(c == ')' || c == ' ')

/-- Length of the regex match `::[^) ]*[) ]` at the head of `s`, if any: two
colons, a maximal run of non-terminator characters and one terminator. -/
def castMatchLen (s : Str) : Option Nat :=
  match s with
  | ':' :: ':' :: t =>
    if (t.takeWhile notCastTerm).length < t.length then
      some ((t.takeWhile notCastTerm).length + 3)
    else Option.none
  | _ => Option.none

/-- Left-to-right scan of `re.sub(r'::[^) ]*[) ]', '', s)`, removing every
match; `fuel` bounds the recursion by the input length. -/
def subCastGo : Nat → Str → Str
  | _, [] => []
  | 0, s => s
  | fuel + 1, c :: rest =>
    match castMatchLen (c :: rest) with
    | some n => subCastGo fuel ((c :: rest).drop n)
    | Option.none => c :: subCastGo fuel rest

/-- `QEP.__convert_operation_and_clean_variables`: strip type-cast
decorations from a Filter string via the substitution above. -/
def convert_operation_and_clean_variables (variable_string : Str) : Str :=
  subCastGo variable_string.length variable_string

/-- The string contains no colon character. -/
def noColon (s : Str) : Bool := s.all (fun c => !(c == ':'))

/-- Every character avoids the terminator class `[) ]`. -/
def noTermChars (s : Str) : Bool := s.all notCastTerm

lemma castMatchLen_ge3 : ∀ {s : Str} {n : Nat}, castMatchLen s = some n → 3 ≤ n := by
  intro s n h
  unfold castMatchLen at h
  split at h
  · split at h
    · simp at h
      omega
    · simp at h
  · simp at h

lemma castMatchLen_cons_ne {c : Char} (t : Str) (hc : ¬ c = ':') :
    castMatchLen (c :: t) = Option.none := by
  unfold castMatchLen
  split
  · rename_i heq
    rw [List.cons_eq_cons] at heq
    exact absurd heq.1 hc
  · rfl

lemma takeWhile_sat_append (p : Char → Bool) :
    ∀ (ty : Str) (term : Char) (rest : Str), (∀ c ∈ ty, p c = true) →
      p term = false → (ty ++ term :: rest).takeWhile p = ty := by
  intro ty
  induction ty with
  | nil =>
    intro term rest _ hterm
    simp [List.takeWhile_cons, hterm]
  | cons c tl ih =>
    intro term rest hsat hterm
    have hc : p c = true := hsat c (by simp)
    simp only [List.cons_append, List.takeWhile_cons, hc, if_true]
    rw [ih term rest (fun x hx => hsat x (by simp [hx])) hterm]

lemma subCastGo_nil (f : Nat) : subCastGo f [] = [] := by
  cases f <;> rfl

lemma subCastGo_congr : ∀ (f g : Nat) (s : Str), s.length ≤ f → s.length ≤ g →
    subCastGo f s = subCastGo g s := by
  intro f
  induction f with
  | zero =>
    intro g s hf _
    have : s = [] := List.eq_nil_of_length_eq_zero (by omega)
    subst this
    rw [subCastGo_nil, subCastGo_nil]
  | succ f ih =>
    intro g s hf hg
    cases s with
    | nil => rw [subCastGo_nil, subCastGo_nil]
    | cons c rest =>
      cases g with
      | zero => simp at hg
      | succ g =>
        simp only [subCastGo]
        cases hm : castMatchLen (c :: rest) with
        | some n =>
          have h3 := castMatchLen_ge3 hm
          apply ih
          · simp only [List.length_drop, List.length_cons]
            simp only [List.length_cons] at hf
            omega
          · simp only [List.length_drop, List.length_cons]
            simp only [List.length_cons] at hg
            omega
        | none =>
          simp only [List.length_cons] at hf hg
          rw [ih g rest (by omega) (by omega)]

/-- C7: the claim is false: the regex `::[^) ]*[) ]` also consumes the
closing bracket or space that terminates the cast, so that character is
removed, not left intact: `"(c_acctbal)::numeric > 100"` becomes
`"(c_acctbal)> 100"`, not `"(c_acctbal) > 100"`. -/
theorem C7_cast_strip_counterexample :
    convert_operation_and_clean_variables (lit "(c_acctbal)::numeric > 100") =
      lit "(c_acctbal)> 100"
    ∧ lit "(c_acctbal)> 100" ≠ lit "(c_acctbal) > 100" :=
  ⟨by decide, by decide⟩

/-- C7 (amended): cast stripping removes each `::typename` decoration
together with the single `)` or space character that immediately follows
it; the base token before the cast is kept intact. -/
theorem C7_cast_strip_amended :
    ∀ (base ty rest : Str) (term : Char),
      noColon base = true → (term = ')' ∨ term = ' ') → noTermChars ty = true →
      convert_operation_and_clean_variables (base ++ lit "::" ++ ty ++ [term] ++ rest) =
        base ++ convert_operation_and_clean_variables rest := by
  intro base
  induction base with
  | nil =>
    intro ty rest term _ hterm hty
    have hsat : ∀ c ∈ ty, notCastTerm c = true := List.all_eq_true.mp hty
    have htermf : notCastTerm term = false := by
      rcases hterm with h | h <;> simp [notCastTerm, h]
    have htw : (ty ++ term :: rest).takeWhile notCastTerm = ty :=
      takeWhile_sat_append notCastTerm ty term rest hsat htermf
    have hshape : ([] : Str) ++ lit "::" ++ ty ++ [term] ++ rest =
        ':' :: ':' :: (ty ++ term :: rest) := by
      simp [lit]
    rw [hshape]
    have hmatch : castMatchLen (':' :: ':' :: (ty ++ term :: rest)) =
        some (ty.length + 3) := by
      have hred : castMatchLen (':' :: ':' :: (ty ++ term :: rest)) =
          if ((ty ++ term :: rest).takeWhile notCastTerm).length <
              (ty ++ term :: rest).length then
            some (((ty ++ term :: rest).takeWhile notCastTerm).length + 3)
          else Option.none := rfl
      rw [hred, htw]
      have : ty.length < (ty ++ term :: rest).length := by
        simp only [List.length_append, List.length_cons]
        omega
      simp [this]
    have hlen : (':' :: ':' :: (ty ++ term :: rest)).length =
        (ty.length + rest.length + 2) + 1 := by
      simp only [List.length_cons, List.length_append]
      omega
    unfold convert_operation_and_clean_variables
    rw [hlen]
    simp only [subCastGo, hmatch]
    have hdrop : (':' :: ':' :: (ty ++ term :: rest)).drop (ty.length + 3) = rest := by
      have : ':' :: ':' :: (ty ++ term :: rest) = (':' :: ':' :: (ty ++ [term])) ++ rest := by
        simp
      rw [this]
      have hl : (':' :: ':' :: (ty ++ [term])).length = ty.length + 3 := by
        simp only [List.length_cons, List.length_append, List.length_nil]
      rw [show ty.length + 3 = (':' :: ':' :: (ty ++ [term])).length from hl.symm]
      exact List.drop_left _ _
    rw [hdrop]
    rw [subCastGo_congr (ty.length + rest.length + 2) rest.length rest (by omega) (by omega)]
    simp
  | cons c base ih =>
    intro ty rest term hcol hterm hty
    simp only [noColon, List.all_cons, Bool.and_eq_true] at hcol
    obtain ⟨hc0, hcol2b⟩ := hcol
    have hc : ¬ c = ':' := by simpa using hc0
    have hcol2 : noColon base = true := hcol2b
    have hshape : (c :: base) ++ lit "::" ++ ty ++ [term] ++ rest =
        c :: (base ++ lit "::" ++ ty ++ [term] ++ rest) := by
      simp
    rw [hshape]
    unfold convert_operation_and_clean_variables
    rw [show (c :: (base ++ lit "::" ++ ty ++ [term] ++ rest)).length =
        (base ++ lit "::" ++ ty ++ [term] ++ rest).length + 1 from by simp]
    simp only [subCastGo, castMatchLen_cons_ne _ hc]
    have := ih ty rest term hcol2 hterm hty
    unfold convert_operation_and_clean_variables at this
    rw [this]
    simp

theorem C7_cast_strip_amended_witness :
    noColon (lit "(c_acctbal)") = true
    ∧ ((' ' : Char) = ')' ∨ (' ' : Char) = ' ')
    ∧ noTermChars (lit "numeric") = true
    ∧ convert_operation_and_clean_variables
        (lit "(c_acctbal)" ++ lit "::" ++ lit "numeric" ++ [' '] ++ lit "> 100") =
      lit "(c_acctbal)" ++ convert_operation_and_clean_variables (lit "> 100") :=
  ⟨by decide, Or.inr rfl, by decide,
    C7_cast_strip_amended (lit "(c_acctbal)") (lit "numeric") (lit "> 100") ' '
      (by decide) (Or.inr rfl) (by decide)⟩

/-- Values carried in plan-node fields and stage attributes; `none` models
Python `None`, `l` a JSON list of strings (sort/group key lists). -/
inductive JValue where
  | s (v : Str)
  | l (v : List Str)
  | none
deriving DecidableEq

/-- The `QueryType` enumeration of `pipesyntax.py`, in declaration order. -/
inductive QueryType where
  | SELECT
  | FROM
  | WHERE
  | JOIN
  | ORDER
  | LIMIT
  | AGGREGATE
  | WINDOWAGG
  | UPDATE
  | SET
deriving DecidableEq

/-- The optimizer node-type token that is each member's enum value. -/
def qtValue : QueryType → Str
  | QueryType.SELECT => lit "SELECT"
  | QueryType.FROM => lit "SCAN"
  | QueryType.WHERE => lit "WHERE"
  | QueryType.JOIN => lit "JOIN"
  | QueryType.ORDER => lit "SORT"
  | QueryType.LIMIT => lit "LIMIT"
  | QueryType.AGGREGATE => lit "AGGREGATE"
  | QueryType.WINDOWAGG => lit "WINDOWAGG"
  | QueryType.UPDATE => lit "MODIFYTABLE"
  | QueryType.SET => lit "SET"

/-- Enumeration members in declaration order (the `_missing_` scan order). -/
def qtMembers : List QueryType :=
  [QueryType.SELECT, QueryType.FROM, QueryType.WHERE, QueryType.JOIN,
   QueryType.ORDER, QueryType.LIMIT, QueryType.AGGREGATE, QueryType.WINDOWAGG,
   QueryType.UPDATE, QueryType.SET]

/-- `QueryType(label)`: exact by-value lookup first, then the `_missing_`
fallback that takes the first member whose lower-cased value is a substring
of the lower-cased label; `none` models the `ValueError` for unknown labels. -/
def classify (s : Str) : Option QueryType :=
  match qtMembers.find? (fun m => qtValue m == s) with
  | some m => some m
  | Option.none =>
    qtMembers.find? (fun m => isSubstr (lowerStr (qtValue m)) (lowerStr s))

/-- A plan-tree node: its `Node Type` label, its remaining fields in JSON
insertion order, and its `Plans` children. -/
structure PlanNode where
  nodeType : Str
  fields : List (Str × JValue)
  children : List PlanNode

/-- One flattened pipeline stage: `{query_type: variable_queries}`. -/
structure Stage where
  kind : QueryType
  attrs : List (Str × JValue)
deriving DecidableEq

/-- Python `dict.get(k)`: the binding of the key, `None` when absent. -/
def pyGet (fs : List (Str × JValue)) (k : Str) : JValue :=
  match fs.find? (fun kv => kv.1 == k) with
  | some kv => kv.2
  | Option.none => JValue.none

/-- Python `dict` lookup returning an option (used where the code subscripts). -/
def lookupField (fs : List (Str × JValue)) (k : Str) : Option JValue :=
  (fs.find? (fun kv => kv.1 == k)).map (fun kv => kv.2)

/-- The `QEP._conditions` attribute whitelist. -/
def qepConditions : List Str :=
  [lit "Hash Cond", lit "Merge Cond", lit "Partial Mode", lit "Filter",
   lit "Relation Name", lit "Index Name", lit "Index Cond", lit "Scan Direction",
   lit "Join Filter", lit "Join Type", lit "Actual Total Time"]

/-- One step of `QEP.__unwrap_QEP` on a dequeued node: classify the label,
collect every field whose key contains `"Key"` followed by every whitelisted
field, add the `Plan Rows` estimate for Limit nodes, and drop unclassified
nodes as well as Aggregate nodes whose `Partial Mode` field is `"Partial"`. -/
def processNode (p : PlanNode) : Option Stage :=
  match classify p.nodeType with
  | Option.none => Option.none
  | some q =>
    let vq := p.fields.filter (fun kv => isSubstr (lit "Key") kv.1) ++
      p.fields.filter (fun kv => qepConditions.contains kv.1)
    let vq2 := if q = QueryType.LIMIT then
        vq ++ [(lit "Plan Rows", pyGet p.fields (lit "Plan Rows"))]
      else vq
    if q = QueryType.AGGREGATE ∧
        pyGet p.fields (lit "Partial Mode") = JValue.s (lit "Partial") then
      Option.none
    else some (Stage.mk q vq2)

mutual

/-- Number of nodes in a plan tree. -/
def nodeSize : PlanNode → Nat
  | PlanNode.mk _ _ cs => 1 + sizeListPN cs

/-- Number of nodes in a forest. -/
def sizeListPN : List PlanNode → Nat
  | [] => 0
  | p :: ps => nodeSize p + sizeListPN ps

end

lemma nodeSize_eq (p : PlanNode) : nodeSize p = 1 + sizeListPN p.children := by
  cases p
  rfl

lemma sizeListPN_append : ∀ (a b : List PlanNode),
    sizeListPN (a ++ b) = sizeListPN a + sizeListPN b := by
  intro a b
  induction a with
  | nil => simp [sizeListPN]
  | cons p rest ih =>
    show sizeListPN (p :: (rest ++ b)) = sizeListPN (p :: rest) + sizeListPN b
    simp only [sizeListPN]
    rw [ih]
    omega

lemma sizeListPN_enqueue_lt (p : PlanNode) (rest : List PlanNode) :
    sizeListPN (rest ++ p.children) < sizeListPN (p :: rest) := by
  rw [sizeListPN_append]
  simp only [sizeListPN]
  rw [nodeSize_eq]
  omega

/-- The work-queue loop of `QEP.__unwrap_QEP`: dequeue a node, enqueue its
children, and append its classified stage (when it has one) to the output. -/
def unwrapAux : List PlanNode → List Stage
  | [] => []
  | p :: rest =>
    match processNode p with
    | some st => st :: unwrapAux (rest ++ p.children)
    | Option.none => unwrapAux (rest ++ p.children)
termination_by q => sizeListPN q
decreasing_by
  all_goals exact sizeListPN_enqueue_lt _ _

/-- `QEP.__unwrap_QEP` seeded with the root plan node. -/
def unwrap_QEP (plan : PlanNode) : List Stage := unwrapAux [plan]

/-- The node visit order of the same work-queue loop. -/
def bfsNodes : List PlanNode → List PlanNode
  | [] => []
  | p :: rest => p :: bfsNodes (rest ++ p.children)
termination_by q => sizeListPN q
decreasing_by
  all_goals exact sizeListPN_enqueue_lt _ _

lemma sizeListPN_flatMap : ∀ l : List PlanNode,
    sizeListPN (l.flatMap PlanNode.children) + l.length = sizeListPN l := by
  intro l
  induction l with
  | nil => simp [sizeListPN]
  | cons p rest ih =>
    simp only [List.flatMap_cons, sizeListPN_append, sizeListPN, List.length_cons]
    rw [nodeSize_eq p]
    omega

lemma sizeListPN_level_lt (p : PlanNode) (rest : List PlanNode) :
    sizeListPN ((p :: rest).flatMap PlanNode.children) < sizeListPN (p :: rest) := by
  have h := sizeListPN_flatMap (p :: rest)
  simp only [List.length_cons] at h
  omega

/-- Breadth-first level order, written level by level: a frontier followed by
the level order of the concatenation of all its children. -/
def levelOrder : List PlanNode → List PlanNode
  | [] => []
  | p :: rest => (p :: rest) ++ levelOrder ((p :: rest).flatMap PlanNode.children)
termination_by q => sizeListPN q
decreasing_by
  exact sizeListPN_level_lt _ _

mutual

/-- Every node of a plan tree: the node followed by all its descendants. -/
def allNodes : PlanNode → List PlanNode
  | PlanNode.mk nt f cs => PlanNode.mk nt f cs :: allNodesList cs

/-- Every node of a forest. -/
def allNodesList : List PlanNode → List PlanNode
  | [] => []
  | p :: ps => allNodes p ++ allNodesList ps

end

@[simp] lemma unwrapAux_nil : unwrapAux [] = [] := by
  simp [unwrapAux]

lemma unwrapAux_cons (p : PlanNode) (rest : List PlanNode) :
    unwrapAux (p :: rest) =
      (match processNode p with
       | some st => st :: unwrapAux (rest ++ p.children)
       | Option.none => unwrapAux (rest ++ p.children)) := by
  simp [unwrapAux]

@[simp] lemma bfsNodes_nil : bfsNodes [] = [] := by
  simp [bfsNodes]

@[simp] lemma bfsNodes_cons (p : PlanNode) (rest : List PlanNode) :
    bfsNodes (p :: rest) = p :: bfsNodes (rest ++ p.children) := by
  simp [bfsNodes]

@[simp] lemma levelOrder_nil : levelOrder [] = [] := by
  simp [levelOrder]

lemma levelOrder_cons (p : PlanNode) (rest : List PlanNode) :
    levelOrder (p :: rest) =
      (p :: rest) ++ levelOrder ((p :: rest).flatMap PlanNode.children) := by
  simp [levelOrder]

@[simp] lemma allNodes_def (nt : Str) (f : List (Str × JValue)) (cs : List PlanNode) :
    allNodes (PlanNode.mk nt f cs) = PlanNode.mk nt f cs :: allNodesList cs := by
  simp [allNodes]

@[simp] lemma allNodesList_nil : allNodesList [] = [] := by
  simp [allNodesList]

@[simp] lemma allNodesList_cons (p : PlanNode) (ps : List PlanNode) :
    allNodesList (p :: ps) = allNodes p ++ allNodesList ps := by
  simp [allNodesList]

/-- The queue-based visit order after consuming a prefix `q1` of the queue:
`q1` itself followed by the traversal with the children of `q1` enqueued. -/
lemma bfs_append : ∀ (q1 q2 : List PlanNode),
    bfsNodes (q1 ++ q2) = q1 ++ bfsNodes (q2 ++ q1.flatMap PlanNode.children) := by
  intro q1
  induction q1 with
  | nil => intro q2; simp
  | cons p r ih =>
    intro q2
    rw [show (p :: r) ++ q2 = p :: (r ++ q2) from by simp, bfsNodes_cons]
    rw [show (r ++ q2) ++ p.children = r ++ (q2 ++ p.children) from by simp]
    rw [ih (q2 ++ p.children)]
    simp [List.append_assoc]

lemma bfs_flatMap (q : List PlanNode) :
    bfsNodes q = q ++ bfsNodes (q.flatMap PlanNode.children) := by
  have h := bfs_append q []
  simpa using h

/-- The queue-based breadth-first traversal visits nodes in level order. -/
lemma bfs_eq_level : ∀ q : List PlanNode, bfsNodes q = levelOrder q := by
  intro q
  induction q using levelOrder.induct with
  | case1 => simp
  | case2 p rest ih =>
    rw [levelOrder_cons, ← ih, ← bfs_flatMap]

/-- The flattening loop emits exactly the classified stages of the visited
nodes, in visit order. -/
lemma unwrapAux_eq_filterMap : ∀ q : List PlanNode,
    unwrapAux q = (bfsNodes q).filterMap processNode := by
  intro q
  induction q using bfsNodes.induct with
  | case1 => simp
  | case2 p rest ih =>
    rw [unwrapAux_cons, bfsNodes_cons, List.filterMap_cons]
    cases hp : processNode p with
    | some st => simp [hp, ih]
    | none => simp [hp, ih]

lemma mem_allNodesList (n : PlanNode) : ∀ cs : List PlanNode,
    n ∈ allNodesList cs ↔ ∃ c ∈ cs, n ∈ allNodes c := by
  intro cs
  induction cs with
  | nil => simp
  | cons p ps ih => simp [ih]

lemma mem_allNodes (p n : PlanNode) :
    n ∈ allNodes p ↔ n = p ∨ ∃ c ∈ p.children, n ∈ allNodes c := by
  cases p with
  | mk nt f cs => simp [mem_allNodesList]

/-- A node appears in the queue traversal exactly when it belongs to the
subtree of some queued node. -/
lemma mem_bfsNodes (n : PlanNode) : ∀ q : List PlanNode,
    n ∈ bfsNodes q ↔ ∃ p ∈ q, n ∈ allNodes p := by
  intro q
  induction q using bfsNodes.induct with
  | case1 => simp
  | case2 p rest ih =>
    rw [bfsNodes_cons]
    simp only [List.mem_cons, ih, List.mem_append]
    constructor
    · rintro (rfl | ⟨x, hx | hx, hnx⟩)
      · exact ⟨n, Or.inl rfl, (mem_allNodes n n).mpr (Or.inl rfl)⟩
      · exact ⟨x, Or.inr hx, hnx⟩
      · exact ⟨p, Or.inl rfl, (mem_allNodes p n).mpr (Or.inr ⟨x, hx, hnx⟩)⟩
    · rintro ⟨x, hx | hx, hnx⟩
      · subst hx
        rcases (mem_allNodes x n).mp hnx with rfl | ⟨c, hc, hnc⟩
        · exact Or.inl rfl
        · exact Or.inr ⟨c, Or.inr hc, hnc⟩
      · exact Or.inr ⟨x, Or.inl hx, hnx⟩

/-- The Seq-Scan leaf of the flatten-order example. -/
def c1FromNode : PlanNode :=
  PlanNode.mk (lit "Seq Scan")
    [(lit "Index Name", JValue.s (lit "cust_pkey")),
     (lit "Relation Name", JValue.s (lit "customer")),
     (lit "Scan Direction", JValue.s (lit "Forward")),
     (lit "Actual Total Time", JValue.s (lit "1.205"))]
    []

/-- The Limit-over-Seq-Scan plan tree of the flatten-order example. -/
def c1Tree : PlanNode :=
  PlanNode.mk (lit "Limit")
    [(lit "Plan Rows", JValue.s (lit "100")),
     (lit "Actual Total Time", JValue.s (lit "0.55"))]
    [c1FromNode]

/-- C1: flattening emits the classified stages of the plan tree in
breadth-first level order, root first; for a Limit root with a single
Seq-Scan child the output is exactly the two stages `[Limit, From]`, the
Limit stage carrying its Plan Rows estimate and Actual Total Time, the From
stage carrying the whitelisted attributes. -/
theorem C1_flatten_breadth_first :
    (∀ root : PlanNode,
        unwrap_QEP root = (levelOrder [root]).filterMap processNode)
    ∧ unwrap_QEP c1Tree =
        [Stage.mk QueryType.LIMIT
           [(lit "Actual Total Time", JValue.s (lit "0.55")),
            (lit "Plan Rows", JValue.s (lit "100"))],
         Stage.mk QueryType.FROM
           [(lit "Index Name", JValue.s (lit "cust_pkey")),
            (lit "Relation Name", JValue.s (lit "customer")),
            (lit "Scan Direction", JValue.s (lit "Forward")),
            (lit "Actual Total Time", JValue.s (lit "1.205"))]] := by
  constructor
  · intro root
    rw [unwrap_QEP, unwrapAux_eq_filterMap, bfs_eq_level]
  · have h1 : processNode c1Tree = some (Stage.mk QueryType.LIMIT
        [(lit "Actual Total Time", JValue.s (lit "0.55")),
         (lit "Plan Rows", JValue.s (lit "100"))]) := by decide
    have h2 : processNode c1FromNode = some (Stage.mk QueryType.FROM
        [(lit "Index Name", JValue.s (lit "cust_pkey")),
         (lit "Relation Name", JValue.s (lit "customer")),
         (lit "Scan Direction", JValue.s (lit "Forward")),
         (lit "Actual Total Time", JValue.s (lit "1.205"))]) := by decide
    have hc1 : c1Tree.children = [c1FromNode] := rfl
    have hc2 : c1FromNode.children = [] := rfl
    rw [unwrap_QEP, unwrapAux_cons, h1, hc1]
    simp only [List.nil_append]
    rw [unwrapAux_cons, h2, hc2]
    simp only [List.nil_append, unwrapAux_nil]

/-- Stage-level test for an Aggregate stage. -/
def isAggStage (st : Stage) : Bool := st.kind == QueryType.AGGREGATE

/-- Node-level test: the node classifies as an Aggregate stage. -/
def isAggNode (p : PlanNode) : Bool := classify p.nodeType == some QueryType.AGGREGATE

lemma processNode_kind {p : PlanNode} {st : Stage} (h : processNode p = some st) :
    classify p.nodeType = some st.kind := by
  unfold processNode at h
  cases hc : classify p.nodeType with
  | none => rw [hc] at h; simp at h
  | some q =>
    rw [hc] at h
    simp only [] at h
    split at h
    · simp at h
    · simp only [Option.some_inj] at h
      rw [← h]

lemma processNode_skip_agg (p : PlanNode)
    (hc : classify p.nodeType = some QueryType.AGGREGATE)
    (hm : pyGet p.fields (lit "Partial Mode") = JValue.s (lit "Partial")) :
    processNode p = Option.none := by
  unfold processNode
  rw [hc]
  simp [hm]

lemma filter_agg_filterMap : ∀ l : List PlanNode,
    (l.filterMap processNode).filter isAggStage =
      (l.filter isAggNode).filterMap processNode := by
  intro l
  induction l with
  | nil => simp
  | cons p rest ih =>
    rw [List.filterMap_cons, List.filter_cons]
    cases hp : processNode p with
    | none =>
      cases hA : isAggNode p
      · simp [hA, ih]
      · simp [hA, List.filterMap_cons, hp, ih]
    | some st =>
      have hk : isAggStage st = isAggNode p := by
        have := processNode_kind hp
        simp [isAggStage, isAggNode, this]
      cases hA : isAggNode p
      · rw [List.filter_cons]
        rw [hk, hA]
        simp [ih]
      · rw [List.filter_cons]
        rw [hk, hA]
        simp [List.filterMap_cons, hp, ih]

/-- The stage that `__unwrap_QEP` builds for a non-Limit node classified as
`q` with fields `fs` (Key-containing fields, then whitelisted fields). -/
def aggStageOf (p : PlanNode) : Stage :=
  Stage.mk QueryType.AGGREGATE
    (p.fields.filter (fun kv => isSubstr (lit "Key") kv.1) ++
     p.fields.filter (fun kv => qepConditions.contains kv.1))

lemma processNode_agg_emit (p : PlanNode)
    (hc : classify p.nodeType = some QueryType.AGGREGATE)
    (hm : pyGet p.fields (lit "Partial Mode") ≠ JValue.s (lit "Partial")) :
    processNode p = some (aggStageOf p) := by
  unfold processNode aggStageOf
  rw [hc]
  simp [hm]

/-- The partial-mode Aggregate node of the suppression example. -/
def aggChildNode : PlanNode :=
  PlanNode.mk (lit "Aggregate")
    [(lit "Partial Mode", JValue.s (lit "Partial")),
     (lit "Actual Total Time", JValue.s (lit "1.0"))]
    []

/-- The finalized Aggregate node (no Partial Mode field) of the example. -/
def aggRootNode : PlanNode :=
  PlanNode.mk (lit "Aggregate")
    [(lit "Group Key", JValue.l [lit "c_custkey"]),
     (lit "Actual Total Time", JValue.s (lit "2.0"))]
    [aggChildNode]

/-- C2: an Aggregate node whose Partial Mode field equals "Partial" is never
appended to the flattened sequence; a tree whose Aggregate-classified nodes
are exactly one such node and one Aggregate node with no Partial Mode field
flattens to exactly one Aggregate stage — the one of the non-partial node. -/
theorem C2_nonfinal_aggregate_suppression :
    (∀ p : PlanNode, classify p.nodeType = some QueryType.AGGREGATE →
        pyGet p.fields (lit "Partial Mode") = JValue.s (lit "Partial") →
        processNode p = Option.none)
    ∧ (∀ root p1 p2 : PlanNode,
        ((levelOrder [root]).filter isAggNode = [p1, p2] ∨
         (levelOrder [root]).filter isAggNode = [p2, p1]) →
        pyGet p1.fields (lit "Partial Mode") = JValue.s (lit "Partial") →
        lookupField p2.fields (lit "Partial Mode") = Option.none →
        (unwrap_QEP root).filter isAggStage = [aggStageOf p2]) := by
  constructor
  · exact processNode_skip_agg
  · intro root p1 p2 hfil hp1 hp2
    have hmem1 : p1 ∈ (levelOrder [root]).filter isAggNode := by
      rcases hfil with h | h <;> rw [h] <;> simp
    have hmem2 : p2 ∈ (levelOrder [root]).filter isAggNode := by
      rcases hfil with h | h <;> rw [h] <;> simp
    have hcl1 : classify p1.nodeType = some QueryType.AGGREGATE := by
      have := List.of_mem_filter hmem1
      simpa [isAggNode] using this
    have hcl2 : classify p2.nodeType = some QueryType.AGGREGATE := by
      have := List.of_mem_filter hmem2
      simpa [isAggNode] using this
    have hnone1 : processNode p1 = Option.none := processNode_skip_agg p1 hcl1 hp1
    have hpg2 : pyGet p2.fields (lit "Partial Mode") = JValue.none := by
      unfold pyGet
      unfold lookupField at hp2
      cases hf : p2.fields.find? (fun kv => kv.1 == lit "Partial Mode") with
      | some kv => rw [hf] at hp2; simp at hp2
      | none => rfl
    have hemit : processNode p2 = some (aggStageOf p2) :=
      processNode_agg_emit p2 hcl2 (by rw [hpg2]; simp)
    rw [unwrap_QEP, unwrapAux_eq_filterMap, bfs_eq_level, filter_agg_filterMap]
    rcases hfil with h | h <;> rw [h] <;>
      simp [List.filterMap_cons, hnone1, hemit]

theorem C2_nonfinal_aggregate_suppression_witness :
    ((levelOrder [aggRootNode]).filter isAggNode = [aggChildNode, aggRootNode] ∨
     (levelOrder [aggRootNode]).filter isAggNode = [aggRootNode, aggChildNode])
    ∧ pyGet aggChildNode.fields (lit "Partial Mode") = JValue.s (lit "Partial")
    ∧ lookupField aggRootNode.fields (lit "Partial Mode") = Option.none
    ∧ (unwrap_QEP aggRootNode).filter isAggStage = [aggStageOf aggRootNode] := by
  have hlev : levelOrder [aggRootNode] = [aggRootNode, aggChildNode] := by
    simp [levelOrder_cons, aggRootNode, aggChildNode]
  have hfil : (levelOrder [aggRootNode]).filter isAggNode =
      [aggRootNode, aggChildNode] := by
    have h1 : isAggNode aggRootNode = true := by decide
    have h2 : isAggNode aggChildNode = true := by decide
    rw [hlev]
    simp [List.filter_cons, h1, h2]
  refine ⟨Or.inr hfil, by decide, by decide, ?_⟩
  exact C2_nonfinal_aggregate_suppression.2 aggRootNode aggChildNode aggRootNode
    (Or.inr hfil) (by decide) (by decide)

/-- C10: a node that is dropped during flattening still has its children
enqueued, so every classifiable node of the whole tree — in particular every
classifiable descendant of a dropped node — contributes its stage to the
flattened sequence. -/
theorem C10_skipped_nodes_keep_subtrees :
    ∀ (root n : PlanNode) (st : Stage),
      n ∈ allNodes root → processNode n = some st → st ∈ unwrap_QEP root := by
  intro root n st hmem hpn
  have hb : n ∈ bfsNodes [root] := by
    rw [mem_bfsNodes]
    exact ⟨root, by simp, hmem⟩
  rw [unwrap_QEP, unwrapAux_eq_filterMap]
  rw [List.mem_filterMap]
  exact ⟨n, hb, hpn⟩

/-- A scan node sitting below an unclassified Gather node. -/
def gatherChildNode : PlanNode :=
  PlanNode.mk (lit "Seq Scan")
    [(lit "Relation Name", JValue.s (lit "customer")),
     (lit "Actual Total Time", JValue.s (lit "1.0"))]
    []

/-- A plan root whose label `Gather` matches no `QueryType` member. -/
def gatherRootNode : PlanNode :=
  PlanNode.mk (lit "Gather")
    [(lit "Actual Total Time", JValue.s (lit "3.0"))]
    [gatherChildNode]

theorem C10_skipped_nodes_keep_subtrees_witness :
    gatherChildNode ∈ allNodes gatherRootNode
    ∧ processNode gatherRootNode = Option.none
    ∧ processNode gatherChildNode = some (Stage.mk QueryType.FROM
        [(lit "Relation Name", JValue.s (lit "customer")),
         (lit "Actual Total Time", JValue.s (lit "1.0"))])
    ∧ Stage.mk QueryType.FROM
        [(lit "Relation Name", JValue.s (lit "customer")),
         (lit "Actual Total Time", JValue.s (lit "1.0"))] ∈
        unwrap_QEP gatherRootNode := by
  have hmem : gatherChildNode ∈ allNodes gatherRootNode := by
    simp [gatherRootNode, gatherChildNode]
  refine ⟨hmem, by decide, by decide, ?_⟩
  exact C10_skipped_nodes_keep_subtrees gatherRootNode gatherChildNode _
    hmem (by decide)

/-- Python `list.insert(i, x)` (clamping an out-of-range index to the end). -/
def pyInsert {α : Type} : Nat → α → List α → List α
  | 0, x, l => x :: l
  | _ + 1, x, [] => [x]
  | n + 1, x, a :: l => a :: pyInsert n x l

/-- The comprehension guard of `__inject_where_condition`: the stage is keyed
by `QueryType.FROM` and its dictionary holds a non-`None` value at `key`. -/
def fromHas (key : Str) (st : Stage) : Bool :=
  st.kind == QueryType.FROM && !(pyGet st.attrs key == JValue.none)

/-- Indices (from `enumerate`) of the From stages carrying `key`. -/
def fromIdxsAux (key : Str) : Nat → List Stage → List Nat
  | _, [] => []
  | i, st :: rest =>
    (if fromHas key st then [i] else []) ++ fromIdxsAux key (i + 1) rest

/-- One iteration of the insertion loop of `__inject_where_condition`:
`where_condition = query_list[index][QueryType.FROM].get(key, None)` and, when
that value is not `None`, `query_list.insert(index, {WHERE: {...}})`. -/
def whereStep (key : Str) (i : Nat) (acc : List Stage) : List Stage :=
  match (acc.get? i).map (fun st => pyGet st.attrs key) with
  | some JValue.none => acc
  | some v => pyInsert i (Stage.mk QueryType.WHERE [(lit "Index Name", v)]) acc
  | Option.none => acc

/-- The reverse-order insertion loop of `__inject_where_condition`. -/
def whereLoop (key : Str) : List Nat → List Stage → List Stage
  | [], acc => acc
  | i :: rest, acc => whereLoop key rest (whereStep key i acc)

/-- `QEP.__inject_where_condition`: one pass over `Filter` values followed by
one pass over `Index Cond` values, each processing its matches in reverse
positional order. -/
def inject_where_condition (query_list : List Stage) : List Stage :=
  let l1 := whereLoop (lit "Filter")
    (fromIdxsAux (lit "Filter") 0 query_list).reverse query_list
  whereLoop (lit "Index Cond")
    (fromIdxsAux (lit "Index Cond") 0 l1).reverse l1

/-- Spec-side description: the `Where` stage synthesized in front of a `From`
stage carrying `key`, or nothing. -/
def whereFor (key : Str) (st : Stage) : List Stage :=
  if fromHas key st then
    [Stage.mk QueryType.WHERE [(lit "Index Name", pyGet st.attrs key)]]
  else []

/-- Spec-side description of the whole injection: each stage is preceded by
its synthesized `Where` stages (Filter first, then Index Cond). -/
def expandWhere (st : Stage) : List Stage :=
  whereFor (lit "Filter") st ++ whereFor (lit "Index Cond") st ++ [st]

lemma fromIdxsAux_shift (key : Str) : ∀ (l : List Stage) (n : Nat),
    fromIdxsAux key n l = (fromIdxsAux key 0 l).map (· + n) := by
  intro l
  induction l with
  | nil => intro n; simp [fromIdxsAux]
  | cons st rest ih =>
    intro n
    simp only [fromIdxsAux]
    rw [ih (n + 1), ih 1]
    rw [List.map_append, List.map_map]
    congr 1
    · cases hg : fromHas key st <;> simp
    · apply List.map_congr_left
      intro x _
      simp only [Function.comp_apply]
      omega


lemma reverse_map_succ (idxs : List Nat) :
    (idxs.map (· + 1)).reverse = idxs.reverse.map (· + 1) := by
  induction idxs with
  | nil => rfl
  | cons i rest ih =>
    rw [List.map_cons, List.reverse_cons, List.reverse_cons, List.map_append, ih]
    rfl

lemma whereStep_succ (key : Str) (i : Nat) (st : Stage) (l : List Stage) :
    whereStep key (i + 1) (st :: l) = st :: whereStep key i l := by
  unfold whereStep
  rw [show (st :: l).get? (i + 1) = l.get? i from rfl]
  cases hv : (l.get? i).map (fun s2 => pyGet s2.attrs key) with
  | none => rfl
  | some v => cases v <;> rfl

lemma whereLoop_append (key : Str) : ∀ (a b : List Nat) (acc : List Stage),
    whereLoop key (a ++ b) acc = whereLoop key b (whereLoop key a acc) := by
  intro a
  induction a with
  | nil => intro b acc; rfl
  | cons i rest ih =>
    intro b acc
    rw [List.cons_append]
    rw [show whereLoop key (i :: (rest ++ b)) acc =
      whereLoop key (rest ++ b) (whereStep key i acc) from rfl]
    rw [show whereLoop key (i :: rest) acc =
      whereLoop key rest (whereStep key i acc) from rfl]
    exact ih b _

lemma whereLoop_shift (key : Str) : ∀ (idxs : List Nat) (st : Stage) (l : List Stage),
    whereLoop key (idxs.map (· + 1)) (st :: l) = st :: whereLoop key idxs l := by
  intro idxs
  induction idxs with
  | nil => intro st l; rfl
  | cons i rest ih =>
    intro st l
    rw [List.map_cons]
    rw [show whereLoop key ((i + 1) :: rest.map (· + 1)) (st :: l) =
      whereLoop key (rest.map (· + 1)) (whereStep key (i + 1) (st :: l)) from rfl]
    rw [whereStep_succ, ih]
    rfl

/-- One injection pass equals interleaving a synthesized `Where` stage right
before each matching `From` stage. -/
lemma wherePass_eq (key : Str) : ∀ qs : List Stage,
    whereLoop key (fromIdxsAux key 0 qs).reverse qs =
      qs.flatMap (fun st => whereFor key st ++ [st]) := by
  intro qs
  induction qs with
  | nil => rfl
  | cons st rest ih =>
    simp only [fromIdxsAux]
    rw [fromIdxsAux_shift key rest 1]
    cases hg : fromHas key st
    · rw [if_neg (by simp [hg])]
      rw [List.nil_append, reverse_map_succ, whereLoop_shift, ih]
      have hwf : whereFor key st = [] := by
        rw [whereFor, if_neg (by simp [hg])]
      rw [List.flatMap_cons, hwf]
      simp
    · rw [if_pos rfl]
      rw [show (([0] ++ (fromIdxsAux key 0 rest).map (· + 1)) : List Nat).reverse =
        ((fromIdxsAux key 0 rest).map (· + 1)).reverse ++ [0] from by simp]
      rw [whereLoop_append, reverse_map_succ, whereLoop_shift, ih]
      rw [show whereLoop key [0]
          (st :: rest.flatMap (fun s => whereFor key s ++ [s])) =
        whereStep key 0 (st :: rest.flatMap (fun s => whereFor key s ++ [s]))
        from rfl]
      have hne : pyGet st.attrs key ≠ JValue.none := by
        intro hc
        rw [fromHas, hc] at hg
        simp at hg
      have hwf : whereFor key st =
          [Stage.mk QueryType.WHERE [(lit "Index Name", pyGet st.attrs key)]] := by
        rw [whereFor, if_pos hg]
      rw [List.flatMap_cons, hwf]
      unfold whereStep
      rw [show ((st :: rest.flatMap (fun s => whereFor key s ++ [s])).get? 0).map
          (fun s2 => pyGet s2.attrs key) = some (pyGet st.attrs key) from rfl]
      cases hv : pyGet st.attrs key with
      | none => exact absurd hv hne
      | s v => rfl
      | l v => rfl

lemma whereFor_where (key : Str) (v : JValue) :
    whereFor key (Stage.mk QueryType.WHERE [(lit "Index Name", v)]) = [] := by
  rw [whereFor, if_neg]
  simp [fromHas]

lemma expand_compose : ∀ qs : List Stage,
    (qs.flatMap (fun st => whereFor (lit "Filter") st ++ [st])).flatMap
      (fun st => whereFor (lit "Index Cond") st ++ [st]) =
      qs.flatMap expandWhere := by
  intro qs
  induction qs with
  | nil => rfl
  | cons st rest ih =>
    rw [List.flatMap_cons, List.flatMap_append, ih, List.flatMap_cons]
    congr 1
    cases hg : fromHas (lit "Filter") st
    · have hwf : whereFor (lit "Filter") st = [] := by
        rw [whereFor, if_neg (by simp [hg])]
      rw [expandWhere, hwf]
      simp [List.flatMap_cons]
    · have hwf : whereFor (lit "Filter") st =
          [Stage.mk QueryType.WHERE
            [(lit "Index Name", pyGet st.attrs (lit "Filter"))]] := by
        rw [whereFor, if_pos hg]
      rw [expandWhere, hwf]
      simp [List.flatMap_cons, whereFor_where]

/-- A From stage carrying both a Filter and an Index Cond value. -/
def c3FromStage : Stage :=
  Stage.mk QueryType.FROM
    [(lit "Filter", JValue.s (lit "(c_acctbal > 100)")),
     (lit "Index Cond", JValue.s (lit "(c_custkey = o_custkey)")),
     (lit "Relation Name", JValue.s (lit "customer"))]

/-- C3: WHERE injection rewrites the sequence stage by stage: every From
stage carrying a Filter value gains one Where stage immediately before it
holding that filter as Index Name, likewise for Index Cond (Filter's Where
first), and every other stage — and the relative order of all pre-existing
stages — is untouched; a From stage with both values gains exactly two
immediately preceding Where stages. -/
theorem C3_where_injection_stability :
    (∀ qs : List Stage, inject_where_condition qs = qs.flatMap expandWhere)
    ∧ inject_where_condition [c3FromStage] =
        [Stage.mk QueryType.WHERE
           [(lit "Index Name", JValue.s (lit "(c_acctbal > 100)"))],
         Stage.mk QueryType.WHERE
           [(lit "Index Name", JValue.s (lit "(c_custkey = o_custkey)"))],
         c3FromStage] := by
  constructor
  · intro qs
    unfold inject_where_condition
    rw [wherePass_eq, wherePass_eq, expand_compose]
  · decide

/-- Python f-string interpolation of an attribute value. -/
def jstr : JValue → Str
  | JValue.s v => v
  | JValue.l vs =>
    lit "[" ++ List.intercalate (lit ", ")
      (vs.map (fun v => ['\''] ++ v ++ ['\''])) ++ lit "]"
  | JValue.none => lit "None"

/-- Interpolation of a possibly missing value (`None` prints as `None`). -/
def jstrOpt : Option JValue → Str
  | some v => jstr v
  | Option.none => lit "None"

/-- Python dict subscript `d[k]`: the value, or a `KeyError` naming `k`. -/
def dSub (fs : List (Str × JValue)) (k : Str) : Except Str JValue :=
  match lookupField fs k with
  | some v => Except.ok v
  | Option.none => Except.error k

/-- `Parser.__parse_select_statement`. -/
def parse_select_statement (query_params : List (Str × JValue)) : Except Str Str :=
  match dSub query_params (lit "Index Name") with
  | Except.error e => Except.error e
  | Except.ok v => Except.ok (lit "|> SELECT " ++ jstr v ++ lit " \n")

/-- `Parser.__parse_from_statement`. -/
def parse_from_statement (query_params : List (Str × JValue)) : Except Str Str :=
  match dSub query_params (lit "Relation Name") with
  | Except.error e => Except.error e
  | Except.ok r =>
    match dSub query_params (lit "Actual Total Time") with
    | Except.error e => Except.error e
    | Except.ok t =>
      Except.ok (lit "|> FROM " ++ jstr r ++ lit " \n Total Time: " ++
        jstr t ++ lit " \n")

/-- `Parser.__parse_join_statement`: the condition is the value of the first
key containing `"Cond"`, defaulting to `None`; a `Filter` value is appended
with `AND`; `Join Type` and `Actual Total Time` are subscripted. -/
def parse_join_statement (query_params : List (Str × JValue)) : Except Str Str :=
  let condition := (query_params.find? (fun kv => isSubstr (lit "Cond") kv.1)).map
    (fun kv => kv.2)
  match dSub query_params (lit "Join Type") with
  | Except.error e => Except.error e
  | Except.ok jt =>
    let output := lit "|> " ++ jstr jt ++ lit " JOIN ON " ++ jstrOpt condition
    let output := if pyGet query_params (lit "Filter") ≠ JValue.none then
        output ++ lit " AND " ++ jstr (pyGet query_params (lit "Filter"))
      else output
    match dSub query_params (lit "Actual Total Time") with
    | Except.error e => Except.error e
    | Except.ok t =>
      Except.ok (output ++ lit "\n Total Time: " ++ jstr t ++ lit " \n")

/-- `Parser.__parse_where_statement`. -/
def parse_where_statement (query_params : List (Str × JValue)) : Except Str Str :=
  match dSub query_params (lit "Index Name") with
  | Except.error e => Except.error e
  | Except.ok v => Except.ok (lit "|> WHERE " ++ jstr v ++ lit " \n")

/-- `Parser.__parse_order_statement`. -/
def parse_order_statement (query_params : List (Str × JValue)) : Except Str Str :=
  match dSub query_params (lit "Sort Key") with
  | Except.error e => Except.error e
  | Except.ok sk =>
    match dSub query_params (lit "Actual Total Time") with
    | Except.error e => Except.error e
    | Except.ok t =>
      Except.ok (lit "|> ORDER BY " ++ jstr sk ++ lit " \n Total Time: " ++
        jstr t ++ lit " \n")

/-- `Parser.__parse_limit_statement`. -/
def parse_limit_statement (query_params : List (Str × JValue)) : Except Str Str :=
  match dSub query_params (lit "Plan Rows") with
  | Except.error e => Except.error e
  | Except.ok pr =>
    match dSub query_params (lit "Actual Total Time") with
    | Except.error e => Except.error e
    | Except.ok t =>
      Except.ok (lit "|> LIMIT " ++ jstr pr ++ lit " \n Total Time: " ++
        jstr t ++ lit " \n")

/-- `Parser.__parse_aggregate_statement`: optional `HAVING` from a present
`Filter` key; `Index Name`, `Group Key` and `Actual Total Time` subscripted. -/
def parse_aggregate_statement (query_params : List (Str × JValue)) : Except Str Str :=
  let having_clause := match lookupField query_params (lit "Filter") with
    | some f => lit "HAVING " ++ jstr f
    | Option.none => []
  match dSub query_params (lit "Index Name") with
  | Except.error e => Except.error e
  | Except.ok idx =>
    match dSub query_params (lit "Group Key") with
    | Except.error e => Except.error e
    | Except.ok gk =>
      match dSub query_params (lit "Actual Total Time") with
      | Except.error e => Except.error e
      | Except.ok t =>
        Except.ok (lit "|> AGGREGATE " ++ jstr idx ++ lit " GROUP BY " ++
          jstr gk ++ lit " " ++ having_clause ++ lit "\n Total Time: " ++
          jstr t ++ lit " \n")

/-- `Parser.__parse_window_aggregate_statement`. -/
def parse_window_aggregate_statement (query_params : List (Str × JValue)) :
    Except Str Str :=
  match dSub query_params (lit "Actual Total Time") with
  | Except.error e => Except.error e
  | Except.ok t =>
    Except.ok (lit "|> WINDOWAGG \n Total Time: " ++ jstr t ++ lit " \n")

/-- `Parser.__parse_update_statement`. -/
def parse_update_statement (query_params : List (Str × JValue)) : Except Str Str :=
  match dSub query_params (lit "Relation Name") with
  | Except.error e => Except.error e
  | Except.ok rn =>
    match dSub query_params (lit "Actual Total Time") with
    | Except.error e => Except.error e
    | Except.ok t =>
      Except.ok (lit "|> UPDATE " ++ jstr rn ++ lit " \n Total Time: " ++
        jstr t ++ lit " \n")

/-- `Parser.__parse_set_statement`. -/
def parse_set_statement (query_params : List (Str × JValue)) : Except Str Str :=
  match dSub query_params (lit "Set Statement") with
  | Except.error e => Except.error e
  | Except.ok ss => Except.ok (lit "|> SET " ++ jstr ss ++ lit " \n")

/-- `Parser.sanitize_query`: dispatch the stage to its per-kind template. -/
def sanitize_query (query_dict : Stage) : Except Str Str :=
  match query_dict.kind with
  | QueryType.SELECT => parse_select_statement query_dict.attrs
  | QueryType.JOIN => parse_join_statement query_dict.attrs
  | QueryType.FROM => parse_from_statement query_dict.attrs
  | QueryType.WHERE => parse_where_statement query_dict.attrs
  | QueryType.ORDER => parse_order_statement query_dict.attrs
  | QueryType.LIMIT => parse_limit_statement query_dict.attrs
  | QueryType.AGGREGATE => parse_aggregate_statement query_dict.attrs
  | QueryType.WINDOWAGG => parse_window_aggregate_statement query_dict.attrs
  | QueryType.UPDATE => parse_update_statement query_dict.attrs
  | QueryType.SET => parse_set_statement query_dict.attrs

/-- `Parser.parse_query`: render each stage in sequence order, reverse the
rendered blocks and concatenate them. -/
def parse_query (query_list : List Stage) : Except Str Str :=
  match query_list.mapM sanitize_query with
  | Except.ok order => Except.ok (order.reverse.foldl (fun acc o => acc ++ o) [])
  | Except.error e => Except.error e

lemma foldl_append_flatten : ∀ (l : List Str) (acc : Str),
    l.foldl (fun a o => a ++ o) acc = acc ++ l.flatten := by
  intro l
  induction l with
  | nil => intro acc; simp
  | cons x rest ih =>
    intro acc
    rw [List.foldl_cons, ih, List.flatten_cons, List.append_assoc]

deriving instance DecidableEq for Except

/-- The Limit stage of the render-order example. -/
def c4LimitStage : Stage :=
  Stage.mk QueryType.LIMIT
    [(lit "Plan Rows", JValue.s (lit "100")),
     (lit "Actual Total Time", JValue.s (lit "0.55"))]

/-- The From stage of the render-order example. -/
def c4FromStage : Stage :=
  Stage.mk QueryType.FROM
    [(lit "Relation Name", JValue.s (lit "customer")),
     (lit "Actual Total Time", JValue.s (lit "1.205"))]

/-- The FROM template text of the example. -/
def c4FromText : Str := lit "|> FROM customer \n Total Time: 1.205 \n"

/-- The LIMIT template text of the example. -/
def c4LimitText : Str := lit "|> LIMIT 100 \n Total Time: 0.55 \n"

/-- C4: rendering concatenates the per-stage-kind template texts of the
stages taken in reversed sequence order; for `[Limit, From]` the result is
the FROM template text followed by the LIMIT template text. -/
theorem C4_render_reverse_concat :
    (∀ (qs : List Stage) (ss : List Str),
        qs.mapM sanitize_query = Except.ok ss →
        parse_query qs = Except.ok ss.reverse.flatten)
    ∧ parse_query [c4LimitStage, c4FromStage] =
        Except.ok (c4FromText ++ c4LimitText) := by
  constructor
  · intro qs ss h
    unfold parse_query
    rw [h]
    show Except.ok (List.foldl (fun acc o => acc ++ o) [] ss.reverse) =
      Except.ok ss.reverse.flatten
    rw [foldl_append_flatten, List.nil_append]
  · decide

theorem C4_render_reverse_concat_witness :
    [c4LimitStage, c4FromStage].mapM sanitize_query =
      Except.ok [c4LimitText, c4FromText]
    ∧ parse_query [c4LimitStage, c4FromStage] =
        Except.ok ([c4LimitText, c4FromText].reverse.flatten) :=
  ⟨by decide, C4_render_reverse_concat.1 [c4LimitStage, c4FromStage]
    [c4LimitText, c4FromText] (by decide)⟩

/-- C8: the claim is false for Join stages: a Join stage with no field whose
key contains `Cond` renders successfully with the placeholder text `None` in
the condition slot instead of failing. -/
theorem C8_missing_field_counterexample :
    sanitize_query (Stage.mk QueryType.JOIN
      [(lit "Join Type", JValue.s (lit "Left")),
       (lit "Actual Total Time", JValue.s (lit "1.0"))]) =
      Except.ok (lit "|> Left JOIN ON None\n Total Time: 1.0 \n") := by
  decide

/-- C8 (amended): fields read by dictionary subscript are rendering errors
identifying the missing field when absent — a Select stage with no Index
Name fails with `Index Name`, a Join stage with no Join Type fails with
`Join Type` — but a Join stage lacking every `Cond`-containing field does
not fail: its condition slot renders as the placeholder `None`. -/
theorem C8_missing_field_amended :
    (∀ attrs : List (Str × JValue),
        lookupField attrs (lit "Index Name") = Option.none →
        sanitize_query (Stage.mk QueryType.SELECT attrs) =
          Except.error (lit "Index Name"))
    ∧ (∀ attrs : List (Str × JValue),
        lookupField attrs (lit "Join Type") = Option.none →
        sanitize_query (Stage.mk QueryType.JOIN attrs) =
          Except.error (lit "Join Type")) := by
  constructor
  · intro attrs h
    simp only [sanitize_query, parse_select_statement, dSub, h]
  · intro attrs h
    simp only [sanitize_query, parse_join_statement, dSub, h]

theorem C8_missing_field_amended_witness :
    lookupField [] (lit "Index Name") = Option.none
    ∧ sanitize_query (Stage.mk QueryType.SELECT []) =
        Except.error (lit "Index Name") :=
  ⟨by decide, C8_missing_field_amended.1 [] (by decide)⟩

/-- Python regex `\w` (ASCII data). -/
def isWordChar (c : Char) : Bool := c.isAlpha || c.isDigit || c == '_'

/-- Python regex `\s` whitespace class. -/
def isPySpace (c : Char) : Bool :=
  c == ' ' || c == '\t' || c == '\n' || c == '\r' || c == '\x0b' || c == '\x0c'

/-- Word-character test on an optional (possibly out-of-range) character. -/
def optWord : Option Char → Bool
  | some c => isWordChar c
  | Option.none => false

/-- Regex `\b` at position `i`: exactly one neighbour is a word character. -/
def boundaryAt (s : Str) (i : Nat) : Bool :=
  (if i = 0 then false else optWord (s.get? (i - 1))) != optWord (s.get? i)

/-- Case-insensitive occurrence of `pat` at position `i` of `s`. -/
def ciMatchAt (s pat : Str) (i : Nat) : Bool :=
  decide (pat.length ≤ (s.drop i).length) &&
    lowerStr ((s.drop i).take pat.length) == lowerStr pat

/-- Word-bounded case-insensitive occurrence of `pat` at position `i`. -/
def wordBoundedAt (s pat : Str) (i : Nat) : Bool :=
  ciMatchAt s pat i && boundaryAt s i && boundaryAt s (i + pat.length)

/-- A `\bSET\b\s+` match starting at position `i`. -/
def setMatchAt (s : Str) (i : Nat) : Bool :=
  wordBoundedAt s (lit "set") i && (s.get? (i + 3)).any isPySpace

/-- Leftmost position where `\bSET\b\s+` matches. -/
def searchSetStart (s : Str) : Option Nat :=
  (List.range s.length).find? (setMatchAt s)

/-- The lookahead `(?=\bFROM\b|\bWHERE\b|;|$)` at position `j` (`$` holds at
the end of the string or just before a final newline). -/
def lookaheadAt (s : Str) (j : Nat) : Bool :=
  wordBoundedAt s (lit "from") j || wordBoundedAt s (lit "where") j ||
  s.get? j == some ';' || decide (j = s.length) ||
  (decide (j + 1 = s.length) && s.get? j == some '\n')

/-- The lazily-shortest group of a `SET` match starting at `i`: skip the
greedy whitespace run, then extend to the first lookahead position. -/
def setGroup (s : Str) (i : Nat) : Str :=
  let wsLen := ((s.drop (i + 3)).takeWhile isPySpace).length
  let gstart := i + 3 + wsLen
  let gend := (((List.range (s.length + 1)).filter
    (fun j => decide (gstart ≤ j))).find? (lookaheadAt s)).getD s.length
  (s.take gend).drop gstart

/-- `re.search(r'\bSET\b\s+(.*?)(?=\bFROM\b|\bWHERE\b|;|$)', query,
re.IGNORECASE | re.DOTALL)`: `group(1)`, or `None` when no match exists. -/
def searchSetGroup (s : Str) : Option Str :=
  match searchSetStart s with
  | some i => some (setGroup s i)
  | Option.none => Option.none

/-- Python `str.strip()`. -/
def pyStrip (s : Str) : Str :=
  ((s.dropWhile isPySpace).reverse.dropWhile isPySpace).reverse

/-- `re.sub` of an empty word-bounded pattern: insert `repl` at every word
boundary (CPython replaces each empty match). -/
def emptyPatSub (repl : Str) : Option Char → Str → Str
  | prev, [] => if optWord prev then repl else []
  | prev, c :: rest =>
    (if optWord prev != optWord (some c) then repl else []) ++
      c :: emptyPatSub repl (some c) rest

/-- Scanner for `re.sub(rf'\b{re.escape(a)}\b', repl, s, re.IGNORECASE)` with
a non-empty literal pattern; `prev` is the character before the scan point. -/
def wordSubGo (pat repl : Str) : Nat → Option Char → Str → Str
  | _, _, [] => []
  | 0, _, s => s
  | fuel + 1, prev, c :: rest =>
    if ciMatchAt (c :: rest) pat 0 && (optWord prev != optWord (some c)) &&
        (optWord ((c :: rest).get? (pat.length - 1)) !=
         optWord ((c :: rest).get? pat.length)) then
      repl ++ wordSubGo pat repl fuel ((c :: rest).get? (pat.length - 1))
        ((c :: rest).drop pat.length)
    else
      c :: wordSubGo pat repl fuel (some c) rest

/-- One `re.sub(rf'\b{re.escape(a)}\b', a.lower(), text, re.IGNORECASE)`. -/
def wordSubCI (pat repl s : Str) : Str :=
  if pat = [] then emptyPatSub repl Option.none s
  else wordSubGo pat repl s.length Option.none s

/-- The alias-lowering loop of `__inject_set_statement`. -/
def lowerAliases (aliasMap : List (Str × Str)) (s : Str) : Str :=
  aliasMap.foldl (fun acc a => wordSubCI a.1 (lowerStr a.1) acc) s

/-- First index satisfying a predicate (`next((i for i, q in ...), ...)`). -/
def firstIdxP {α : Type} (p : α → Bool) : List α → Option Nat
  | [] => Option.none
  | a :: l => if p a then some 0 else (firstIdxP p l).map (· + 1)

/-- The stage dictionary is keyed by `QueryType.UPDATE`. -/
def isUpdateStage (st : Stage) : Bool := st.kind == QueryType.UPDATE

/-- The stage dictionary is keyed by `QueryType.SELECT`. -/
def isSelectStage (st : Stage) : Bool := st.kind == QueryType.SELECT

/-- Python `list.pop(i)` (out-of-range indices cannot occur at call sites). -/
def pyPop {α : Type} : Nat → List α → List α
  | _, [] => []
  | 0, _ :: l => l
  | n + 1, a :: l => a :: pyPop n l

/-- `QEP.__inject_set_statement`: when an Update stage exists, extract the
`SET` clause from the raw query (an absent match raises, as `None.group`
does), lower known aliases in it, insert a `Set` stage immediately before
the Update stage, and remove a `Select` stage immediately preceding the
insertion point. -/
def inject_set_statement (query : Str) (query_list : List Stage)
    (aliasMap : List (Str × Str)) : Except Str (List Stage) :=
  match firstIdxP isUpdateStage query_list with
  | Option.none => Except.ok query_list
  | some update_index =>
    match searchSetGroup query with
    | Option.none => Except.error (lit "AttributeError")
    | some g =>
      let set_statement := lowerAliases aliasMap (pyStrip g)
      let qs1 := pyInsert update_index
        (Stage.mk QueryType.SET [(lit "Set Statement", JValue.s set_statement)])
        query_list
      if 1 ≤ update_index then
        match qs1.get? (update_index - 1) with
        | some st =>
          if isSelectStage st then Except.ok (pyPop (update_index - 1) qs1)
          else Except.ok qs1
        | Option.none => Except.ok qs1
      else Except.ok qs1

lemma firstIdxP_lt {α : Type} (p : α → Bool) : ∀ {l : List α} {i : Nat},
    firstIdxP p l = some i → i < l.length := by
  intro l
  induction l with
  | nil => intro i h; simp [firstIdxP] at h
  | cons a rest ih =>
    intro i h
    simp only [firstIdxP] at h
    by_cases ha : p a
    · simp [ha] at h
      simp only [List.length_cons]
      omega
    · simp [ha] at h
      obtain ⟨j, hj, rfl⟩ := h
      have := ih hj
      simp only [List.length_cons]
      omega

lemma pyInsert_eq {α : Type} : ∀ (i : Nat) (x : α) (l : List α), i ≤ l.length →
    pyInsert i x l = l.take i ++ x :: l.drop i := by
  intro i
  induction i with
  | zero => intro x l _; rfl
  | succ n ih =>
    intro x l h
    cases l with
    | nil => simp at h
    | cons a l2 =>
      simp only [pyInsert, List.take_succ_cons, List.drop_succ_cons, List.cons_append]
      rw [ih x l2 (by simpa using h)]

lemma pyPop_eq {α : Type} : ∀ (j : Nat) (l : List α),
    pyPop j l = l.take j ++ l.drop (j + 1) := by
  intro j
  induction j with
  | zero =>
    intro l
    cases l with
    | nil => rfl
    | cons a l2 => rfl
  | succ n ih =>
    intro l
    cases l with
    | nil => rfl
    | cons a l2 =>
      simp only [pyPop, List.take_succ_cons, List.drop_succ_cons, List.cons_append]
      rw [ih l2]

lemma get?_append_left {α : Type} : ∀ (l1 l2 : List α) (n : Nat), n < l1.length →
    (l1 ++ l2).get? n = l1.get? n := by
  intro l1
  induction l1 with
  | nil => intro l2 n h; simp at h
  | cons a rest ih =>
    intro l2 n h
    cases n with
    | zero => rfl
    | succ m =>
      simp only [List.cons_append, List.get?_cons_succ]
      exact ih l2 m (by simpa using h)

lemma get?_take_lt {α : Type} : ∀ (l : List α) (i n : Nat), n < i →
    (l.take i).get? n = l.get? n := by
  intro l
  induction l with
  | nil => intro i n _; simp
  | cons a rest ih =>
    intro i n h
    cases i with
    | zero => omega
    | succ j =>
      cases n with
      | zero => rfl
      | succ m =>
        simp only [List.take_succ_cons, List.get?_cons_succ]
        exact ih j m (by omega)

lemma take_append_le {α : Type} : ∀ (l1 l2 : List α) (n : Nat), n ≤ l1.length →
    (l1 ++ l2).take n = l1.take n := by
  intro l1
  induction l1 with
  | nil =>
    intro l2 n h
    simp at h
    simp [h]
  | cons a rest ih =>
    intro l2 n h
    cases n with
    | zero => rfl
    | succ m =>
      simp only [List.cons_append, List.take_succ_cons]
      rw [ih l2 m (by simpa using h)]

/-- C9: with an Update stage present at index `i`, SET injection raises (as
`None.group(1)` does) whenever the pattern finds no SET clause in the raw
text; and when a clause is found, a `Set` stage holding the extracted,
alias-lowered, stripped text is inserted immediately before the Update
stage, with a `Select` stage immediately preceding the insertion point
removed. -/
theorem C9_set_injection :
    ∀ (query : Str) (query_list : List Stage) (aliasMap : List (Str × Str))
      (i : Nat),
      firstIdxP isUpdateStage query_list = some i →
      (searchSetGroup query = Option.none →
        inject_set_statement query query_list aliasMap =
          Except.error (lit "AttributeError"))
      ∧ (∀ g : Str, searchSetGroup query = some g →
        inject_set_statement query query_list aliasMap = Except.ok (
          if 1 ≤ i ∧ (query_list.get? (i - 1)).any isSelectStage = true then
            query_list.take (i - 1) ++
              Stage.mk QueryType.SET
                [(lit "Set Statement",
                  JValue.s (lowerAliases aliasMap (pyStrip g)))] ::
              query_list.drop i
          else
            query_list.take i ++
              Stage.mk QueryType.SET
                [(lit "Set Statement",
                  JValue.s (lowerAliases aliasMap (pyStrip g)))] ::
              query_list.drop i)) := by
  intro query qs aliasMap i hu
  constructor
  · intro hs
    simp only [inject_set_statement, hu, hs]
  · intro g hs
    have hlt : i < qs.length := firstIdxP_lt isUpdateStage hu
    simp only [inject_set_statement, hu, hs]
    set W : Stage := Stage.mk QueryType.SET
      [(lit "Set Statement", JValue.s (lowerAliases aliasMap (pyStrip g)))] with hW
    have hq1 : pyInsert i W qs = qs.take i ++ W :: qs.drop i :=
      pyInsert_eq i W qs (by omega)
    by_cases h1 : 1 ≤ i
    · rw [if_pos h1]
      have hgetq : (pyInsert i W qs).get? (i - 1) = qs.get? (i - 1) := by
        rw [hq1]
        rw [get?_append_left]
        · exact get?_take_lt qs i (i - 1) (by omega)
        · rw [List.length_take]
          omega
      rw [hgetq]
      cases hst : qs.get? (i - 1) with
      | none =>
        have hc : ¬ (1 ≤ i ∧
            Option.any isSelectStage (Option.none : Option Stage) = true) := by
          simp
        rw [if_neg hc]
        show Except.ok (pyInsert i W qs) = _
        rw [hq1]
      | some st =>
        cases hsel : isSelectStage st
        · have hc : ¬ (1 ≤ i ∧ Option.any isSelectStage (some st) = true) := by
            simp [hsel]
          rw [if_neg hc]
          show (if isSelectStage st then Except.ok (pyPop (i - 1) (pyInsert i W qs))
            else Except.ok (pyInsert i W qs)) = _
          rw [if_neg (by simp [hsel]), hq1]
        · have hc : 1 ≤ i ∧ Option.any isSelectStage (some st) = true := by
            refine ⟨h1, ?_⟩
            simp [hsel]
          rw [if_pos hc]
          show (if isSelectStage st then Except.ok (pyPop (i - 1) (pyInsert i W qs))
            else Except.ok (pyInsert i W qs)) = _
          rw [if_pos hsel]
          rw [pyPop_eq, hq1]
          have e1 : (qs.take i ++ W :: qs.drop i).take (i - 1) = qs.take (i - 1) := by
            rw [take_append_le]
            · rw [List.take_take]
              congr 1
              omega
            · rw [List.length_take]
              omega
          have e2 : (qs.take i ++ W :: qs.drop i).drop ((i - 1) + 1) =
              W :: qs.drop i := by
            rw [show (i - 1) + 1 = i from by omega]
            have hd := List.drop_left (qs.take i) (W :: qs.drop i)
            rw [List.length_take] at hd
            rw [show min i qs.length = i from by omega] at hd
            exact hd
          rw [e1, e2]
    · rw [if_neg h1]
      have hc : ¬ (1 ≤ i ∧ (qs.get? (i - 1)).any isSelectStage = true) := by
        intro hcc
        exact h1 hcc.1
      rw [if_neg hc, hq1]

/-- The raw query text of the SET-injection example. -/
def c9Query : Str := lit "UPDATE t SET x = 1 WHERE y > 2"

/-- A synthetic Select stage preceding the Update stage. -/
def c9SelectStage : Stage :=
  Stage.mk QueryType.SELECT [(lit "Index Name", JValue.s (lit "c_custkey"))]

/-- The Update stage of the example. -/
def c9UpdateStage : Stage :=
  Stage.mk QueryType.UPDATE
    [(lit "Relation Name", JValue.s (lit "t")),
     (lit "Actual Total Time", JValue.s (lit "1.0"))]

theorem C9_set_injection_witness :
    firstIdxP isUpdateStage [c9SelectStage, c9UpdateStage] = some 1
    ∧ searchSetGroup c9Query = some (lit "x = 1 ")
    ∧ inject_set_statement c9Query [c9SelectStage, c9UpdateStage] [] =
        Except.ok [Stage.mk QueryType.SET
          [(lit "Set Statement", JValue.s (lit "x = 1"))], c9UpdateStage] := by
  refine ⟨by decide, by decide, ?_⟩
  have h := (C9_set_injection c9Query [c9SelectStage, c9UpdateStage] [] 1
    (by decide)).2 (lit "x = 1 ") (by decide)
  rw [h]
  decide
